import Mathlib

/-!
# Verification of the toy payments engine (`src/main.rs`)

Shallow embedding of the transaction-processing state machine of the
repository's `main` function, together with the global transaction-history
store (`HISTORY`, `history_insert!`, `history_get!`).

Modelling notes, all traceable to the source:

* Monetary amounts (`struct Amount(f64)`) are carried as rationals `ℚ`:
  every finite double is an exact rational, and the source performs only
  `+`, `-` and `≤` on amounts.  The structural model `step` uses the exact
  operations; where a claim's truth depends on IEEE-754 rounding, the
  refined model `stepF64` below rounds the result of every amount
  addition and subtraction to the nearest binary64 value (`floatRound`,
  round-to-nearest with ties to even), which is what `impl Add for
  Amount` / `impl Sub for Amount` compute on the `f64` carrier.
  Comparison of finite doubles agrees with the exact rational order, so
  the `≤` guard is the same in both models.
* Client ids (`u16`) and transaction ids (`u32`) are used purely as map
  keys, never arithmetically, so they are modelled as `ℕ`.
* The `HashMap<ClientID, Ledger>` is modelled as a total function
  `ClientID → Ledger` (every absent key behaves as `Ledger::default()`,
  exactly what `entry(..).or_insert_with(Ledger::default)` produces)
  together with the list `seen` of client ids that have appeared, which
  determines which rows the final CSV emits.  `HISTORY` is a function
  `TxID → Option Amount`; `insert` is pointwise update.
* The build modelled is the default one: every `#[cfg(feature =
  "strict_mode")] panic!(..)` is compiled out, so each recoverable
  condition falls through to `continue` / the silent else-branch.
* `tx.3.expect("missing amount ...")` on a deposit or withdrawal without
  an amount is a panic in every build; `step` returns `none` there.
-/

namespace PaymentsEngine

/-- Client IDs are stored on 16-bit unsigned integers in the source; they
are only used as map keys here. -/
abbrev ClientID := ℕ

/-- Transaction IDs are stored on 32-bit unsigned integers in the source;
they are only used as map keys here. -/
abbrev TxID := ℕ

/-- `struct Amount(f64)`, carried as an exact rational (every finite
double is one). -/
abbrev Amount := ℚ

/-- `enum Tx { deposit, withdrawal, dispute, resolve, chargeback }`. -/
inductive Tx where
  | deposit
  | withdrawal
  | dispute
  | resolve
  | chargeback
deriving DecidableEq, Repr

/-- `struct Input(Tx, ClientID, TxID, Option<Amount>)` — one CSV record.
Field names follow the roles of the positional fields. -/
structure Input where
  tx : Tx
  client : ClientID
  txId : TxID
  amount : Option Amount
deriving DecidableEq, Repr

/-- `enum LedgerStatus { Default, Disputed, Locked }`. -/
inductive LedgerStatus where
  | Default
  | Disputed
  | Locked
deriving DecidableEq, Repr

/-- `struct Ledger { available, held, status }`. -/
structure Ledger where
  available : Amount
  held : Amount
  status : LedgerStatus
deriving DecidableEq, Repr

/-- `impl Default for Ledger`: zero balances, unlocked. -/
def Ledger.init : Ledger :=
  { available := 0, held := 0, status := LedgerStatus.Default }

/-- The whole mutable state of `main`'s processing loop: the `accounts`
map, the set (kept as a list) of client ids present in it, and the global
`HISTORY` map. -/
structure EngineState where
  accounts : ClientID → Ledger
  seen : List ClientID
  history : TxID → Option Amount

/-- State at the start of the run: empty `accounts`, empty `HISTORY`. -/
def initState : EngineState :=
  { accounts := fun _ => Ledger.init, seen := [], history := fun _ => none }

/-- Pointwise update of the accounts map: `accounts[c] = l`. -/
def updAccount (f : ClientID → Ledger) (c : ClientID) (l : Ledger) :
    ClientID → Ledger :=
  fun c2 => if c2 = c then l else f c2

/-- `history_insert!(t, a)`: `HISTORY.insert(t, a)` as a pointwise update. -/
def histInsert (h : TxID → Option Amount) (t : TxID) (a : Amount) :
    TxID → Option Amount :=
  fun t2 => if t2 = t then some a else h t2

/-- `accounts.entry(c).or_insert_with(Ledger::default)`: record that
client `c` now has a row in the map (the ledger value itself is already
represented by the total `accounts` function). -/
def seenAdd (s : EngineState) (c : ClientID) : EngineState :=
  { s with seen := if c ∈ s.seen then s.seen else s.seen ++ [c] }

/-- One iteration of the `for result in rdr.deserialize()` loop, in the
default (non-strict) build.  `none` models the `expect` panic on a
deposit/withdrawal record with no amount; every other path returns
`some` of the next state (a `continue` or silent else-branch returns the
state unchanged except for the `entry(..)` row creation). -/
def step (s : EngineState) (i : Input) : Option EngineState :=
  let ledger := s.accounts i.client
  let s1 := seenAdd s i.client
  if ledger.status = LedgerStatus.Locked then
    -- locked account: `continue` (strict-mode panic compiled out)
    some s1
  else
    match i.tx with
    | Tx.deposit =>
        match i.amount with
        | none => none
        | some amount =>
            some { s1 with
                   accounts := updAccount s1.accounts i.client
                     { ledger with available := ledger.available + amount },
                   history := histInsert s1.history i.txId amount }
    | Tx.withdrawal =>
        match i.amount with
        | none => none
        | some amount =>
            if amount ≤ ledger.available then
              some { s1 with
                     accounts := updAccount s1.accounts i.client
                       { ledger with available := ledger.available - amount },
                     history := histInsert s1.history i.txId amount }
            else
              -- insufficient funds: silently discarded
              some s1
    | Tx.dispute =>
        match s.history i.txId with
        | none => some s1  -- `history_get!` not found: `continue`
        | some amount =>
            some { s1 with
                   accounts := updAccount s1.accounts i.client
                     { available := ledger.available - amount,
                       held := ledger.held + amount,
                       status := LedgerStatus.Disputed } }
    | Tx.resolve =>
        if ledger.status = LedgerStatus.Disputed then
          match s.history i.txId with
          | none => some s1
          | some amount =>
              some { s1 with
                     accounts := updAccount s1.accounts i.client
                       { available := ledger.available + amount,
                         held := ledger.held - amount,
                         status := LedgerStatus.Default } }
        else
          some s1  -- not disputed: silently discarded
    | Tx.chargeback =>
        if ledger.status = LedgerStatus.Disputed then
          match s.history i.txId with
          | none => some s1
          | some amount =>
              some { s1 with
                     accounts := updAccount s1.accounts i.client
                       { available := ledger.available,
                         held := ledger.held - amount,
                         status := LedgerStatus.Locked } }
        else
          some s1  -- not disputed: silently discarded

/-- The whole processing loop over the remaining records.  `none` models
an aborted run (panic on a malformed record). -/
def processAll (s : EngineState) : List Input → Option EngineState
  | [] => some s
  | i :: is =>
      match step s i with
      | none => none
      | some s2 => processAll s2 is

/-- One row of the output CSV: `(client, available, held, total, locked)`
as serialized at the end of `main`; `total` is computed there as
`ledger.available + ledger.held`. -/
structure OutputRow where
  client : ClientID
  available : Amount
  held : Amount
  total : Amount
  locked : Bool
deriving DecidableEq, Repr

/-- The row `main` serializes for client `c`. -/
def rowOf (s : EngineState) (c : ClientID) : OutputRow :=
  let l := s.accounts c
  { client := c,
    available := l.available,
    held := l.held,
    total := l.available + l.held,
    locked := decide (l.status = LedgerStatus.Locked) }

/-- The final CSV body: one row per client that appeared in the input. -/
def output (s : EngineState) : List OutputRow :=
  s.seen.map (rowOf s)

/-- The recoverable-condition discard paths of the loop, exactly as the
default build takes them: any record on a locked account, an
insufficient-funds withdrawal, a dispute citing an unrecorded `tx_id`,
and a resolve/chargeback on a non-disputed account or citing an
unrecorded `tx_id`. -/
def discards (s : EngineState) (i : Input) : Bool :=
  let ledger := s.accounts i.client
  if ledger.status = LedgerStatus.Locked then true
  else
    match i.tx, i.amount with
    | Tx.withdrawal, some a => decide (ledger.available < a)
    | Tx.dispute, _ => (s.history i.txId).isNone
    | Tx.resolve, _ =>
        decide (ledger.status ≠ LedgerStatus.Disputed) || (s.history i.txId).isNone
    | Tx.chargeback, _ =>
        decide (ledger.status ≠ LedgerStatus.Disputed) || (s.history i.txId).isNone
    | _, _ => false


/-- `deposit(1, t1, 5)` applied to the empty initial state: client 1 has
5 available and history records `t1 ↦ 5`. -/
def sDep : EngineState :=
  (processAll initState [Input.mk Tx.deposit 1 1 (some 5)]).getD initState

/-- `sDep` followed by `dispute(1, t1)`: client 1 under dispute, 0
available, 5 held. -/
def sDisp : EngineState :=
  (processAll sDep [Input.mk Tx.dispute 1 1 none]).getD initState

/-- `sDep` followed by `withdrawal(1, t2, 3)`. -/
def sWithdraw : EngineState :=
  (step sDep (Input.mk Tx.withdrawal 1 2 (some 3))).getD initState

/-- The state after a withdrawal from the empty initial state, which is
rejected for insufficient funds. -/
def sFailW : EngineState :=
  (step initState (Input.mk Tx.withdrawal 1 7 (some 5))).getD initState

/-- A state whose client 1 is already locked with zero balances. -/
def sLocked : EngineState :=
  { accounts := fun c =>
      if c = 1 then { available := 0, held := 0, status := LedgerStatus.Locked }
      else Ledger.init,
    seen := [1],
    history := fun _ => none }

/-- Records thrown at `sLocked`: a deposit to the locked client 1 and a
deposit to the fresh client 2. -/
def lockedRun : List Input :=
  [Input.mk Tx.deposit 1 9 (some 10), Input.mk Tx.deposit 2 10 (some 3)]

/-- End state of `lockedRun` from `sLocked`. -/
def sLockedEnd : EngineState :=
  (processAll sLocked lockedRun).getD initState

/-- Runs `deposit(1,t1,1); deposit(1,t2,100); dispute(1,t1);
resolve(1,t2)`: the resolve cites `t2`, which is not the transaction
under dispute. -/
def mismatchedResolveRun : List Input :=
  [Input.mk Tx.deposit 1 1 (some 1),
   Input.mk Tx.deposit 1 2 (some 100),
   Input.mk Tx.dispute 1 1 none,
   Input.mk Tx.resolve 1 2 none]

/-- Runs `deposit(1,t1,5); dispute(1,t1); dispute(1,t1)`: the second
dispute addresses an account that is already under dispute. -/
def doubleDisputeRun : List Input :=
  [Input.mk Tx.deposit 1 1 (some 5),
   Input.mk Tx.dispute 1 1 none,
   Input.mk Tx.dispute 1 1 none]

/-- Runs `deposit(1,t1,5); dispute(2,t1)`: client 2 disputes a
transaction recorded for client 1. -/
def crossClientRun : List Input :=
  [Input.mk Tx.deposit 1 1 (some 5), Input.mk Tx.dispute 2 1 none]

/-- End state of `crossClientRun`. -/
def sCross : EngineState :=
  (processAll initState crossClientRun).getD initState


/-- Truncating division `num / den` of a rational toward zero; on the
positive values it is applied to below, this is the floor. -/
def ratTrunc (q : ℚ) : ℤ := q.num / (q.den : ℤ)

/-- Round a positive rational to the nearest integer, ties to even —
the IEEE-754 default rounding applied at significand position. -/
def roundNearestEven (q : ℚ) : ℤ :=
  let f := ratTrunc q
  let r := q - Rat.divInt f 1
  if r < 1 / 2 then f
  else if 1 / 2 < r then f + 1
  else if f % 2 = 0 then f else f + 1

/-- Number of binary digits of a natural number (`0` for `0`),
computed by a fixed cascade of comparisons; covers every magnitude in
this file (inputs below `2 ^ 128`). -/
def natBits (n : ℕ) : ℕ :=
  let p1 := if n < 18446744073709551616 then (n, 0)
            else (n / 18446744073709551616, 64)
  let p2 := if p1.1 < 4294967296 then p1 else (p1.1 / 4294967296, p1.2 + 32)
  let p3 := if p2.1 < 65536 then p2 else (p2.1 / 65536, p2.2 + 16)
  let p4 := if p3.1 < 256 then p3 else (p3.1 / 256, p3.2 + 8)
  let p5 := if p4.1 < 16 then p4 else (p4.1 / 16, p4.2 + 4)
  let p6 := if p5.1 < 4 then p5 else (p5.1 / 4, p5.2 + 2)
  p6.2 + (if p6.1 < 2 then p6.1 else 2)

/-- `⌊log₂ |q|⌋` of a nonzero rational: the bit lengths of numerator
and denominator bracket it within one, and a single comparison decides
(`2 ^ k ≤ n / d` iff `d * 2 ^ k ≤ n`). -/
def ratLog2 (q : ℚ) : ℤ :=
  let n := q.num.natAbs
  let d := q.den
  let k : ℤ := (natBits n : ℤ) - (natBits d : ℤ)
  if 0 ≤ k then
    if d * 2 ^ k.toNat ≤ n then k else k - 1
  else
    if d ≤ n * 2 ^ (-k).toNat then k else k - 1

/-- Round an exact rational to the nearest IEEE-754 binary64 value
(round-to-nearest, ties to even), for results in the normal finite
range — which covers every value arising in this file; overflow and
subnormals are out of scope.  `|q|` is scaled by `2 ^ (-e)` into the
significand position `[2 ^ 52, 2 ^ 53)`, rounded to an integer with
ties to even, and scaled back. -/
def floatRound (q : ℚ) : ℚ :=
  if q = 0 then 0
  else
    let e : ℤ := ratLog2 q - 52
    let n := q.num.natAbs
    let d := q.den
    let m : ℚ :=
      if 0 ≤ e then Rat.divInt (Int.ofNat n) (Int.ofNat (d * 2 ^ e.toNat))
      else Rat.divInt (Int.ofNat (n * 2 ^ (-e).toNat)) (Int.ofNat d)
    let mi := roundNearestEven m
    let v : ℚ :=
      if 0 ≤ e then Rat.divInt (mi * 2 ^ e.toNat) 1
      else Rat.divInt mi ((2 : ℤ) ^ (-e).toNat)
    if q < 0 then -v else v

/-- `impl Add for Amount` on the `f64` carrier: exact sum, rounded. -/
def fAdd (x y : ℚ) : ℚ := floatRound (x + y)

/-- `impl Sub for Amount` on the `f64` carrier: exact difference,
rounded. -/
def fSub (x y : ℚ) : ℚ := floatRound (x - y)

/-- The loop body of `main` again, identical to `step` except that
every amount addition and subtraction is rounded to binary64 (`fAdd`,
`fSub`), as the `f64` carrier of `Amount` computes it.  Comparison of
finite doubles coincides with the exact rational order, so the `≤`
guard of the withdrawal arm is unchanged. -/
def stepF64 (s : EngineState) (i : Input) : Option EngineState :=
  let ledger := s.accounts i.client
  let s1 := seenAdd s i.client
  if ledger.status = LedgerStatus.Locked then
    some s1
  else
    match i.tx with
    | Tx.deposit =>
        match i.amount with
        | none => none
        | some amount =>
            some { s1 with
                   accounts := updAccount s1.accounts i.client
                     { ledger with available := fAdd ledger.available amount },
                   history := histInsert s1.history i.txId amount }
    | Tx.withdrawal =>
        match i.amount with
        | none => none
        | some amount =>
            if amount ≤ ledger.available then
              some { s1 with
                     accounts := updAccount s1.accounts i.client
                       { ledger with available := fSub ledger.available amount },
                     history := histInsert s1.history i.txId amount }
            else
              some s1
    | Tx.dispute =>
        match s.history i.txId with
        | none => some s1
        | some amount =>
            some { s1 with
                   accounts := updAccount s1.accounts i.client
                     { available := fSub ledger.available amount,
                       held := fAdd ledger.held amount,
                       status := LedgerStatus.Disputed } }
    | Tx.resolve =>
        if ledger.status = LedgerStatus.Disputed then
          match s.history i.txId with
          | none => some s1
          | some amount =>
              some { s1 with
                     accounts := updAccount s1.accounts i.client
                       { available := fAdd ledger.available amount,
                         held := fSub ledger.held amount,
                         status := LedgerStatus.Default } }
        else
          some s1
    | Tx.chargeback =>
        if ledger.status = LedgerStatus.Disputed then
          match s.history i.txId with
          | none => some s1
          | some amount =>
              some { s1 with
                     accounts := updAccount s1.accounts i.client
                       { available := ledger.available,
                         held := fSub ledger.held amount,
                         status := LedgerStatus.Locked } }
        else
          some s1

/-- The processing loop under the binary64 arithmetic. -/
def processAllF64 (s : EngineState) : List Input → Option EngineState
  | [] => some s
  | i :: is =>
      match stepF64 s i with
      | none => none
      | some s2 => processAllF64 s2 is

/-- Runs `deposit(1,t1,1e16); withdrawal(1,t2,1e16); deposit(1,t3,1);
dispute(1,t1); resolve(1,t1)`.  Every amount is exactly representable
in binary64, and before the dispute the account is Active with
`available = 1.0` and `t1 ↦ 10 ^ 16` recorded. -/
def roundtripLossRun : List Input :=
  [Input.mk Tx.deposit 1 1 (some 10000000000000000),
   Input.mk Tx.withdrawal 1 2 (some 10000000000000000),
   Input.mk Tx.deposit 1 3 (some 1),
   Input.mk Tx.dispute 1 1 none,
   Input.mk Tx.resolve 1 1 none]

/-- Runs `deposit(1,t1,0.5); deposit(1,t2,1e16); dispute(1,t2);
chargeback(1,t1)`.  The chargeback is processed on an UnderDispute
account and its cited `t1` is recorded with amount `0.5`. -/
def chargebackNoLossRun : List Input :=
  [Input.mk Tx.deposit 1 1 (some (1 / 2)),
   Input.mk Tx.deposit 1 2 (some 10000000000000000),
   Input.mk Tx.dispute 1 2 none,
   Input.mk Tx.chargeback 1 1 none]

section Lemmas

@[simp]
theorem seenAdd_accounts (s : EngineState) (c : ClientID) :
    (seenAdd s c).accounts = s.accounts := rfl

@[simp]
theorem seenAdd_history (s : EngineState) (c : ClientID) :
    (seenAdd s c).history = s.history := rfl

theorem seenAdd_mem (s : EngineState) (c : ClientID) :
    c ∈ (seenAdd s c).seen := by
  unfold seenAdd
  by_cases h : c ∈ s.seen
  · simp [h]
  · simp [h]

theorem seenAdd_of_mem (s : EngineState) (c : ClientID) (h : c ∈ s.seen) :
    seenAdd s c = s := by
  unfold seenAdd
  simp [h]

@[simp]
theorem updAccount_same (f : ClientID → Ledger) (c : ClientID) (l : Ledger) :
    updAccount f c l c = l := by
  simp [updAccount]

theorem updAccount_other (f : ClientID → Ledger) (c : ClientID) (l : Ledger)
    (c2 : ClientID) (h : c2 ≠ c) : updAccount f c l c2 = f c2 := by
  simp [updAccount, h]

end Lemmas

section StepEquations

/-- Unfolding `step` on a deposit record. -/
theorem step_deposit_eq (s : EngineState) (c : ClientID) (t : TxID) (a : Amount) :
    step s (Input.mk Tx.deposit c t (some a)) =
      if (s.accounts c).status = LedgerStatus.Locked then some (seenAdd s c)
      else
        some { seenAdd s c with
               accounts := updAccount s.accounts c
                 { s.accounts c with available := (s.accounts c).available + a },
               history := histInsert s.history t a } := rfl

/-- Unfolding `step` on a withdrawal record. -/
theorem step_withdrawal_eq (s : EngineState) (c : ClientID) (t : TxID) (a : Amount) :
    step s (Input.mk Tx.withdrawal c t (some a)) =
      if (s.accounts c).status = LedgerStatus.Locked then some (seenAdd s c)
      else if a ≤ (s.accounts c).available then
        some { seenAdd s c with
               accounts := updAccount s.accounts c
                 { s.accounts c with available := (s.accounts c).available - a },
               history := histInsert s.history t a }
      else some (seenAdd s c) := rfl

/-- Unfolding `step` on a dispute record whose cited id is in history
(the record's own amount field is ignored by the code). -/
theorem step_dispute_found (s : EngineState) (c : ClientID) (t : TxID)
    (amt : Option Amount) (a : Amount) (hH : s.history t = some a) :
    step s (Input.mk Tx.dispute c t amt) =
      if (s.accounts c).status = LedgerStatus.Locked then some (seenAdd s c)
      else
        some { seenAdd s c with
               accounts := updAccount s.accounts c
                 { available := (s.accounts c).available - a,
                   held := (s.accounts c).held + a,
                   status := LedgerStatus.Disputed } } := by
  unfold step
  simp only [hH]
  rfl

/-- Unfolding `step` on a dispute record whose cited id is absent. -/
theorem step_dispute_absent (s : EngineState) (c : ClientID) (t : TxID)
    (amt : Option Amount) (hH : s.history t = none) :
    step s (Input.mk Tx.dispute c t amt) = some (seenAdd s c) := by
  unfold step
  simp only [hH]
  split <;> rfl

end StepEquations

section MoreStepEquations

/-- Unfolding `step` on any record addressed to a locked account: the
loop body is just `continue`. -/
theorem step_locked (s : EngineState) (i : Input)
    (h : (s.accounts i.client).status = LedgerStatus.Locked) :
    step s i = some (seenAdd s i.client) := by
  unfold step
  simp only [h, if_pos]

/-- Unfolding `step` on a resolve record for a disputed account whose
cited id is in history. -/
theorem step_resolve_found (s : EngineState) (c : ClientID) (t : TxID)
    (amt : Option Amount) (a : Amount)
    (hD : (s.accounts c).status = LedgerStatus.Disputed)
    (hH : s.history t = some a) :
    step s (Input.mk Tx.resolve c t amt) =
      some { seenAdd s c with
             accounts := updAccount s.accounts c
               { available := (s.accounts c).available + a,
                 held := (s.accounts c).held - a,
                 status := LedgerStatus.Default } } := by
  unfold step
  simp only [hD, hH]
  rfl

/-- Unfolding `step` on a resolve record that is discarded: account not
disputed, or cited id absent from history. -/
theorem step_resolve_skip (s : EngineState) (c : ClientID) (t : TxID)
    (amt : Option Amount)
    (h : (s.accounts c).status ≠ LedgerStatus.Disputed ∨ s.history t = none) :
    step s (Input.mk Tx.resolve c t amt) = some (seenAdd s c) := by
  unfold step
  by_cases hL : (s.accounts c).status = LedgerStatus.Locked
  · simp only [hL, if_pos]
  · simp only [if_neg hL]
    by_cases hD : (s.accounts c).status = LedgerStatus.Disputed
    · rcases h with h | h
      · exact absurd hD h
      · simp only [hD, h, if_pos]
    · simp only [if_neg hD]

/-- Unfolding `step` on a chargeback record for a disputed account whose
cited id is in history. -/
theorem step_chargeback_found (s : EngineState) (c : ClientID) (t : TxID)
    (amt : Option Amount) (a : Amount)
    (hD : (s.accounts c).status = LedgerStatus.Disputed)
    (hH : s.history t = some a) :
    step s (Input.mk Tx.chargeback c t amt) =
      some { seenAdd s c with
             accounts := updAccount s.accounts c
               { available := (s.accounts c).available,
                 held := (s.accounts c).held - a,
                 status := LedgerStatus.Locked } } := by
  unfold step
  simp only [hD, hH]
  rfl

/-- Unfolding `step` on a chargeback record that is discarded: account
not disputed, or cited id absent from history. -/
theorem step_chargeback_skip (s : EngineState) (c : ClientID) (t : TxID)
    (amt : Option Amount)
    (h : (s.accounts c).status ≠ LedgerStatus.Disputed ∨ s.history t = none) :
    step s (Input.mk Tx.chargeback c t amt) = some (seenAdd s c) := by
  unfold step
  by_cases hL : (s.accounts c).status = LedgerStatus.Locked
  · simp only [hL, if_pos]
  · simp only [if_neg hL]
    by_cases hD : (s.accounts c).status = LedgerStatus.Disputed
    · rcases h with h | h
      · exact absurd hD h
      · simp only [hD, h, if_pos]
    · simp only [if_neg hD]

end MoreStepEquations

section FrameLemmas

/-- A step never touches the ledger of a client other than the one the
record addresses. -/
theorem step_accounts_ne (s : EngineState) (i : Input) (s' : EngineState)
    (h : step s i = some s') (c : ClientID) (hc : c ≠ i.client) :
    s'.accounts c = s.accounts c := by
  unfold step at h
  dsimp only at h
  repeat' split at h
  all_goals first
    | exact Option.noConfusion h
    | (injection h with h; subst h; simp [updAccount, hc])

/-- After a step, the addressed client has a row in the accounts map. -/
theorem step_mem_seen (s : EngineState) (i : Input) (s' : EngineState)
    (h : step s i = some s') : i.client ∈ s'.seen := by
  unfold step at h
  dsimp only at h
  repeat' split at h
  all_goals first
    | exact Option.noConfusion h
    | (injection h with h; subst h; exact seenAdd_mem s i.client)

/-- A single step leaves a locked client's ledger untouched, whether or
not the record addresses that client. -/
theorem step_preserves_locked_account (s : EngineState) (i : Input)
    (s' : EngineState) (h : step s i = some s') (c : ClientID)
    (hc : (s.accounts c).status = LedgerStatus.Locked) :
    s'.accounts c = s.accounts c := by
  by_cases hic : i.client = c
  · have hl : (s.accounts i.client).status = LedgerStatus.Locked := by
      rw [hic]; exact hc
    rw [step_locked s i hl] at h
    injection h with h
    subst h
    rfl
  · exact step_accounts_ne s i s' h c (Ne.symm hic)

end FrameLemmas

/-- C4: once an account's status is `Locked`, every subsequent record of
any variant — addressed to it or to any other client — leaves its
`available`, `held` and `status` unchanged for the remainder of the run
(default mode): the locked check at the top of the loop discards every
record addressed to it, and records for other clients never touch it. -/
theorem locked_account_frozen (s : EngineState) (c : ClientID)
    (hL : (s.accounts c).status = LedgerStatus.Locked)
    (rs : List Input) (s' : EngineState) (h : processAll s rs = some s') :
    s'.accounts c = s.accounts c := by
  induction rs generalizing s with
  | nil =>
      simp only [processAll] at h
      injection h with h
      subst h
      rfl
  | cons i is ih =>
      simp only [processAll] at h
      cases hs : step s i with
      | none =>
          rw [hs] at h
          exact Option.noConfusion h
      | some s1 =>
          rw [hs] at h
          have h1 : s1.accounts c = s.accounts c :=
            step_preserves_locked_account s i s1 hs c hL
          have h2 : (s1.accounts c).status = LedgerStatus.Locked := by
            rw [h1]; exact hL
          rw [ih s1 h2 h, h1]

/-- Witness for C4: client 1 of `sLocked` is locked; after a further
deposit to it and a deposit to client 2, its ledger is unchanged. -/
theorem locked_account_frozen_witness :
    sLockedEnd.accounts 1 = sLocked.accounts 1 :=
  locked_account_frozen sLocked 1 rfl lockedRun sLockedEnd rfl

/-- C1: a withdrawal record addressed to a non-locked account is applied
if and only if `amount ≤ available` — the post-state is exactly the
ledger with `available` decreased by the amount and the history with
`(tx_id, amount)` recorded when `amount ≤ available`, and exactly the
prior state (no ledger or history change, hence no partial application)
otherwise. -/
theorem withdrawal_applied_iff_sufficient (s : EngineState) (c : ClientID)
    (t : TxID) (a : Amount) (s' : EngineState)
    (hl : (s.accounts c).status ≠ LedgerStatus.Locked)
    (h : step s (Input.mk Tx.withdrawal c t (some a)) = some s') :
    s' = if a ≤ (s.accounts c).available then
           { seenAdd s c with
             accounts := updAccount s.accounts c
               { s.accounts c with
                 available := (s.accounts c).available - a },
             history := histInsert s.history t a }
         else seenAdd s c := by
  rw [step_withdrawal_eq, if_neg hl] at h
  by_cases hc : a ≤ (s.accounts c).available
  · rw [if_pos hc] at h ⊢
    exact (Option.some.inj h).symm
  · rw [if_neg hc] at h ⊢
    exact (Option.some.inj h).symm

/-- Witness for C1: withdrawing 3 from client 1 of `sDep` (5 available,
not locked) lands in the applied branch of the characterization. -/
theorem withdrawal_applied_iff_sufficient_witness :
    sWithdraw = if (3 : Amount) ≤ (sDep.accounts 1).available then
                  { seenAdd sDep 1 with
                    accounts := updAccount sDep.accounts 1
                      { sDep.accounts 1 with
                        available := (sDep.accounts 1).available - 3 },
                    history := histInsert sDep.history 2 3 }
                else seenAdd sDep 1 :=
  withdrawal_applied_iff_sufficient sDep 1 2 3 sWithdraw
    (by with_unfolding_all decide) (by with_unfolding_all rfl)

/-- C5: every row the snapshot emitter writes satisfies
`total = available + held` exactly: `main` stores no running total and
computes the `total` column as `ledger.available + ledger.held` at
serialization time, so the identity holds for every account after every
processed record, with no drift. -/
theorem output_total_eq (s : EngineState) (r : OutputRow)
    (hr : r ∈ output s) : r.total = r.available + r.held := by
  rcases List.mem_map.mp hr with ⟨c, _, rfl⟩
  rfl

/-- Witness for C5: the row emitted for client 1 of `sLocked`. -/
theorem output_total_eq_witness :
    (rowOf sLocked 1).total
      = (rowOf sLocked 1).available + (rowOf sLocked 1).held :=
  output_total_eq sLocked (rowOf sLocked 1)
    (by simp [output, sLocked])

/-- C9: every record discarded as a recoverable condition in default
mode — any record on a locked account, an insufficient-funds
withdrawal, a dispute citing an unrecorded `tx_id`, or a
resolve/chargeback on a non-disputed account or citing an unrecorded
`tx_id` — produces exactly the prior state up to row creation: the
whole accounts map and the history store are identical before and
after. -/
theorem discarded_record_no_mutation (s : EngineState) (i : Input)
    (h : discards s i = true) :
    step s i = some (seenAdd s i.client) ∧
    (seenAdd s i.client).accounts = s.accounts ∧
    (seenAdd s i.client).history = s.history := by
  obtain ⟨tx, c, t, amt⟩ := i
  refine ⟨?_, rfl, rfl⟩
  by_cases hL : (s.accounts c).status = LedgerStatus.Locked
  · exact step_locked s (Input.mk tx c t amt) hL
  · unfold discards at h
    dsimp only at h
    rw [if_neg hL] at h
    cases tx with
    | deposit => cases amt <;> simp at h
    | withdrawal =>
        cases amt with
        | none => simp at h
        | some a =>
            have ha : (s.accounts c).available < a := of_decide_eq_true h
            rw [step_withdrawal_eq, if_neg hL, if_neg (not_le.mpr ha)]
    | dispute =>
        exact step_dispute_absent s c t amt (Option.isNone_iff_eq_none.mp h)
    | resolve =>
        rcases Bool.or_eq_true_iff.mp h with h1 | h2
        · exact step_resolve_skip s c t amt (Or.inl (of_decide_eq_true h1))
        · exact step_resolve_skip s c t amt
            (Or.inr (Option.isNone_iff_eq_none.mp h2))
    | chargeback =>
        rcases Bool.or_eq_true_iff.mp h with h1 | h2
        · exact step_chargeback_skip s c t amt (Or.inl (of_decide_eq_true h1))
        · exact step_chargeback_skip s c t amt
            (Or.inr (Option.isNone_iff_eq_none.mp h2))

/-- Witness for C9: `dispute(1, t99)` against the empty initial state
cites an unrecorded id and is discarded without mutation. -/
theorem discarded_record_no_mutation_witness :
    step initState (Input.mk Tx.dispute 1 99 none)
        = some (seenAdd initState 1) ∧
    (seenAdd initState 1).accounts = initState.accounts ∧
    (seenAdd initState 1).history = initState.history :=
  discarded_record_no_mutation initState (Input.mk Tx.dispute 1 99 none)
    (by with_unfolding_all decide)

/-- C10: a withdrawal rejected for insufficient funds writes nothing to
the history store (its `tx_id` stays exactly as it was, in particular
absent if nothing else recorded it), and a dispute citing a `tx_id`
that is absent from history is discarded, leaving every account's
ledger untouched. -/
theorem rejected_withdrawal_leaves_no_dispute_handle
    (s : EngineState) (c : ClientID) (t : TxID) (a : Amount)
    (s' : EngineState)
    (hin : ¬ a ≤ (s.accounts c).available)
    (h : step s (Input.mk Tx.withdrawal c t (some a)) = some s')
    (u : EngineState) (c2 : ClientID) (hu : u.history t = none) :
    s'.history = s.history ∧
    step u (Input.mk Tx.dispute c2 t none) = some (seenAdd u c2) ∧
    (seenAdd u c2).accounts = u.accounts := by
  refine ⟨?_, step_dispute_absent u c2 t none hu, rfl⟩
  by_cases hL : (s.accounts c).status = LedgerStatus.Locked
  · rw [step_locked s (Input.mk Tx.withdrawal c t (some a)) hL] at h
    injection h with h
    subst h
    rfl
  · rw [step_withdrawal_eq, if_neg hL, if_neg hin] at h
    injection h with h
    subst h
    rfl

/-- Witness for C10: withdrawing 5 from the fresh (0-available) client 1
is rejected; a later `dispute(2, t7)` citing that id finds nothing. -/
theorem rejected_withdrawal_leaves_no_dispute_handle_witness :
    sFailW.history = initState.history ∧
    step initState (Input.mk Tx.dispute 2 7 none)
        = some (seenAdd initState 2) ∧
    (seenAdd initState 2).accounts = initState.accounts :=
  rejected_withdrawal_leaves_no_dispute_handle initState 1 7 5 sFailW
    (by with_unfolding_all decide) (by with_unfolding_all rfl)
    initState 2 rfl

/-- C6 (code bug): the run `deposit(1,t1,1); deposit(1,t2,100);
dispute(1,t1); resolve(1,t2)` ends with client 1 at `held = -99 < 0`.
The resolve arm checks only the account-level status and then subtracts
the amount of the *cited* transaction `t2`, which is not the one under
dispute, violating the `held ≥ 0` property. -/
theorem resolve_drives_held_negative :
    (processAll initState mismatchedResolveRun).map
        (fun s => (s.accounts 1).held) = some (-99) ∧
    (processAll initState mismatchedResolveRun).map
        (fun s => decide ((s.accounts 1).held < 0)) = some true := by
  constructor <;> with_unfolding_all rfl

/-- C7 is refuted: after `deposit(1,t1,5); dispute(1,t1)` client 1 is
`UnderDispute` with `(available, held) = (0, 5)`; the second
`dispute(1,t1)` nevertheless takes effect again, leaving `(-5, 10)` —
the dispute arm never inspects the status before applying. -/
theorem second_dispute_changes_state :
    (processAll initState (List.take 2 doubleDisputeRun)).map
        (fun s => ((s.accounts 1).available, (s.accounts 1).held,
                   (s.accounts 1).status))
      = some (0, 5, LedgerStatus.Disputed) ∧
    (processAll initState doubleDisputeRun).map
        (fun s => ((s.accounts 1).available, (s.accounts 1).held,
                   (s.accounts 1).status))
      = some (-5, 10, LedgerStatus.Disputed) := by
  constructor <;> with_unfolding_all rfl

/-- C7 as amended: the dispute transition fires from *any* non-locked
status whenever the cited id is recorded — including from
`UnderDispute`, where it applies again on top of the outstanding
dispute, so several dispute amounts can accumulate on one account. -/
theorem dispute_applies_from_any_unlocked_status (s : EngineState)
    (c : ClientID) (t : TxID) (a : Amount)
    (hl : (s.accounts c).status ≠ LedgerStatus.Locked)
    (hH : s.history t = some a) :
    step s (Input.mk Tx.dispute c t none) =
      some { seenAdd s c with
             accounts := updAccount s.accounts c
               { available := (s.accounts c).available - a,
                 held := (s.accounts c).held + a,
                 status := LedgerStatus.Disputed } } := by
  rw [step_dispute_found s c t none a hH, if_neg hl]

/-- Witness for amended C7: the dispute fires from the `UnderDispute`
state `sDisp` (status `Disputed`, `t1 ↦ 5` recorded). -/
theorem dispute_applies_from_any_unlocked_status_witness :
    step sDisp (Input.mk Tx.dispute 1 1 none) =
      some { seenAdd sDisp 1 with
             accounts := updAccount sDisp.accounts 1
               { available := (sDisp.accounts 1).available - 5,
                 held := (sDisp.accounts 1).held + 5,
                 status := LedgerStatus.Disputed } } :=
  dispute_applies_from_any_unlocked_status sDisp 1 1 5
    (by with_unfolding_all decide) (by with_unfolding_all rfl)

/-- C8 is refuted: in `deposit(1,t1,5); dispute(2,t1)` the dispute by
client 2 cites a transaction recorded for client 1, yet the lookup —
keyed by `tx_id` alone — finds the amount and moves client 2's funds:
client 2 ends at `(available, held) = (-5, 5)`, `UnderDispute`. -/
theorem cross_client_dispute_changes_state :
    (processAll initState crossClientRun).map
        (fun s => ((s.accounts 2).available, (s.accounts 2).held,
                   (s.accounts 2).status))
      = some (-5, 5, LedgerStatus.Disputed) := by
  with_unfolding_all rfl

/-- C8 as amended: the history store records no client, so a dispute
citing a `tx_id` deposited by a *different* client finds the recorded
amount and applies it to the addressed (non-locked) account. -/
theorem dispute_crosses_clients (s : EngineState) (c cd : ClientID)
    (t : TxID) (a : Amount) (s' : EngineState)
    (hne : cd ≠ c)
    (hc : (s.accounts c).status ≠ LedgerStatus.Locked)
    (hcd : (s.accounts cd).status ≠ LedgerStatus.Locked)
    (h : processAll s
          [Input.mk Tx.deposit c t (some a), Input.mk Tx.dispute cd t none]
        = some s') :
    (s'.accounts cd).available = (s.accounts cd).available - a ∧
    (s'.accounts cd).held = (s.accounts cd).held + a ∧
    (s'.accounts cd).status = LedgerStatus.Disputed := by
  simp only [processAll] at h
  rw [step_deposit_eq, if_neg hc] at h
  dsimp only at h
  rw [step_dispute_found
        { accounts := updAccount s.accounts c
            { s.accounts c with
              available := (s.accounts c).available + a },
          seen := (seenAdd s c).seen,
          history := histInsert s.history t a }
        cd t none a (by simp [histInsert]),
      if_neg (by simpa [updAccount, hne] using hcd)] at h
  dsimp only at h
  injection h with h
  subst h
  refine ⟨?_, ?_, ?_⟩ <;> simp [updAccount, hne]

/-- Witness for amended C8: client 1 deposits 5 at `t1` from the empty
state, client 2 disputes `t1` and ends at `(-5, 5)`, under dispute. -/
theorem dispute_crosses_clients_witness :
    (sCross.accounts 2).available = (initState.accounts 2).available - 5 ∧
    (sCross.accounts 2).held = (initState.accounts 2).held + 5 ∧
    (sCross.accounts 2).status = LedgerStatus.Disputed :=
  dispute_crosses_clients initState 1 2 1 5 sCross (by decide)
    (by decide) (by decide) (by with_unfolding_all rfl)

set_option maxRecDepth 4000 in
/-- C2 (code bug): under the binary64 arithmetic the source actually
uses, before the dispute of `roundtripLossRun` client 1 is Active with
`available = 1` and `t1 ↦ 10 ^ 16` recorded, yet the
`Dispute(t1); Resolve(t1)` round trip ends with `available = 0`, not
`1`: the dispute's subtraction `1.0 - 10 ^ 16` rounds to `-10 ^ 16`
(ties to even) and the resolve's addition lands on `0`, so the
restoration is not lossless for every valid amount.  Values are read
off through `Rat.num`/`Rat.den` (`n/1` is the integer `n`). -/
theorem roundtrip_loses_funds_f64 :
    (processAllF64 initState (List.take 3 roundtripLossRun)).map
        (fun s => ((s.accounts 1).available.num, (s.accounts 1).available.den,
                   (s.accounts 1).status,
                   (s.history 1).map (fun a => (a.num, a.den))))
      = some (1, 1, LedgerStatus.Default, some (10000000000000000, 1)) ∧
    (processAllF64 initState roundtripLossRun).map
        (fun s => ((s.accounts 1).available.num, (s.accounts 1).available.den,
                   (s.accounts 1).held.num, (s.accounts 1).status))
      = some (0, 1, 0, LedgerStatus.Default) := by
  constructor <;> with_unfolding_all rfl

set_option maxRecDepth 4000 in
/-- C3 (code bug): under binary64 arithmetic, the chargeback of
`chargebackNoLossRun` is processed on an UnderDispute account whose
cited `t1` is recorded with amount `1/2`, yet `held = 10 ^ 16` is
unchanged — `10 ^ 16 - 0.5` rounds back to `10 ^ 16` — and `available`
is untouched, so `total = available + held` decreases by `0`, not by
the cited amount; the account is still locked.  Values are read off
through `Rat.num`/`Rat.den`. -/
theorem chargeback_no_total_decrease_f64 :
    (processAllF64 initState (List.take 3 chargebackNoLossRun)).map
        (fun s => ((s.accounts 1).available.num,
                   (s.accounts 1).held.num, (s.accounts 1).held.den,
                   (s.accounts 1).status,
                   (s.history 1).map (fun a => (a.num, a.den))))
      = some (0, 10000000000000000, 1, LedgerStatus.Disputed, some (1, 2)) ∧
    (processAllF64 initState chargebackNoLossRun).map
        (fun s => ((s.accounts 1).available.num,
                   (s.accounts 1).held.num, (s.accounts 1).held.den,
                   (s.accounts 1).status))
      = some (0, 10000000000000000, 1, LedgerStatus.Locked) := by
  constructor <;> with_unfolding_all rfl
